import Mathlib

/-!
Formal model of the FIFO page-replacement simulator
(`runFIFOSimulation` in `src/src/pages/FIFOSimulator.jsx`).

The JavaScript core is embedded shallowly:

* `validate` models the input-validation and parsing block
  (source lines 30-58).  A JavaScript `NaN` produced by `parseInt` is
  modelled as `none : Option Int`; `jsParseInt` models `parseInt` with
  the default radix (optional sign, then the maximal run of leading
  decimal digits, `NaN` when there is no leading digit) and `jsTrim`
  models `String.prototype.trim`.
* `fifoStep` models one iteration of the simulation loop
  (source lines 67-93).  The two places the source can only reach
  through corrupt values — `loadOrder.shift()` returning `undefined`
  on an empty queue, and `frames.indexOf(victimPage)` returning `-1`
  when the victim is not resident — are modelled as the result `none`.
* `simulateAux` / `simulate` model the whole loop together with the
  snapshot recording and fault counting (source lines 61-114).
  `rankMap` models the `rankMap` object built on lines 97-100 as an
  association list in queue order (key duplication is impossible since
  the queue is proved duplicate-free).
-/

namespace FifoSim

/-- Error taxonomy of the validation block, in source order
(source lines 37, 43, 49, 55). -/
inductive ValidationError where
  | InvalidFormat
  | NegativeReference
  | LengthOutOfRange
  | FrameCountOutOfRange
  deriving DecidableEq

/-- Whitespace recognized by `String.prototype.trim` (restricted to the
ASCII whitespace characters that can occur in the simulator's input). -/
def isJsSpace (c : Char) : Bool :=
  c == ' ' || c == '\t' || c == '\n' || c == '\r'

/-- Model of `s.trim()`: drop whitespace from both ends. -/
def jsTrim (s : String) : String :=
  String.mk (((s.data.dropWhile isJsSpace).reverse.dropWhile isJsSpace).reverse)

/-- Value of a decimal digit list read most-significant first. -/
def digitsToNat (ds : List Char) : Nat :=
  ds.foldl (fun acc c => acc * 10 + (c.toNat - '0'.toNat)) 0

/-- The maximal run of leading decimal digits, `none` when the first
character is not a digit (this is `parseInt`'s `NaN` case). -/
def parseLeadingDigits (cs : List Char) : Option Nat :=
  match cs.takeWhile Char.isDigit with
  | [] => none
  | ds => some (digitsToNat ds)

/-- Model of JavaScript `parseInt(s)` (radix 10) on an already trimmed
string: an optional sign followed by leading digits; `NaN` is `none`. -/
def jsParseInt (s : String) : Option Int :=
  match s.data with
  | '-' :: cs => (parseLeadingDigits cs).map (fun n => -(n : Int))
  | '+' :: cs => (parseLeadingDigits cs).map (fun n => (n : Int))
  | cs => (parseLeadingDigits cs).map (fun n => (n : Int))

/-- The per-token parse results of
`pageStrings.map(s => s.trim()).filter(s => s !== '').map(s => parseInt(s))`
(source lines 31-34), keeping `NaN` visible as `none`. -/
def parsedOptions (pageStrings : List String) : List (Option Int) :=
  ((pageStrings.map jsTrim).filter (fun s => s != "")).map jsParseInt

/-- The `pages` array of the source once the `NaN` check has passed
(every entry of `parsedOptions` is then `some`). -/
def parsedPages (pageStrings : List String) : List Int :=
  (parsedOptions pageStrings).map (fun o => o.getD 0)

/-- A raw token that survives trimming and filtering but fails to parse;
this is exactly what check 1 of the source (line 37) detects. -/
def hasBadToken (pageStrings : List String) : Prop :=
  ∃ s ∈ pageStrings, jsTrim s ≠ "" ∧ jsParseInt (jsTrim s) = none

/-- The validation block of `runFIFOSimulation` (source lines 30-58):
four checks in fixed order, first failure wins.  The first condition is
the source's
`pages.some(isNaN) || pageStrings.some(s => s.trim() !== '' && isNaN(parseInt(s.trim())))`. -/
def validate (pageStrings : List String) (frameCount : Int) :
    Except ValidationError (List Int × Int) :=
  if (∃ o ∈ parsedOptions pageStrings, o = none) ∨
      ∃ s ∈ pageStrings, jsTrim s ≠ "" ∧ jsParseInt (jsTrim s) = none then
    Except.error ValidationError.InvalidFormat
  else if ∃ n ∈ parsedPages pageStrings, n < 0 then
    Except.error ValidationError.NegativeReference
  else if (parsedPages pageStrings).length = 0 ∨ (parsedPages pageStrings).length > 10 then
    Except.error ValidationError.LengthOutOfRange
  else if frameCount < 3 ∨ frameCount > 5 then
    Except.error ValidationError.FrameCountOutOfRange
  else
    Except.ok (parsedPages pageStrings, frameCount)

/-- Model of `Array.prototype.indexOf` on the frames array: index of the
first occurrence of `x`, `none` standing for the source's `-1`. -/
def jsIndexOf (x : Option Nat) : List (Option Nat) → Option Nat
  | [] => none
  | y :: rest => if y = x then some 0 else (jsIndexOf x rest).map (fun i => i + 1)

/-- One snapshot pushed onto `steps` (source lines 103-109).
`frameRanks` is the source's `rankMap` object as an association list. -/
structure StepSnapshot where
  pageReference : Nat
  frames : List (Option Nat)
  isFault : Bool
  replacedPage : Option Nat
  frameRanks : List (Nat × Nat)
  deriving DecidableEq

/-- `loadOrder.forEach((p, index) => rankMap[p] = index + 1)`
(source lines 97-100), with the running index made explicit. -/
def rankMapAux : Nat → List Nat → List (Nat × Nat)
  | _, [] => []
  | i, p :: rest => (p, i + 1) :: rankMapAux (i + 1) rest

/-- The FIFO rank mapping of a load-order queue: 1-based position,
rank 1 is the oldest resident (next victim). -/
def rankMap (loadOrder : List Nat) : List (Nat × Nat) :=
  rankMapAux 0 loadOrder

/-- One iteration of the simulation loop (source lines 67-93): hit test,
then fault into the first free frame, then FIFO eviction.  The result is
the new `(frames, loadOrder)` state, the `isFault` flag and the
`replacedPage` value; `none` marks the two unreachable corrupt branches
(empty queue popped / victim not found). -/
def fifoStep (frames : List (Option Nat)) (loadOrder : List Nat) (page : Nat) :
    Option ((List (Option Nat) × List Nat) × Bool × Option Nat) :=
  if some page ∈ frames then
    some ((frames, loadOrder), false, none)
  else
    match jsIndexOf none frames with
    | some freeIndex =>
        some ((frames.set freeIndex (some page), loadOrder ++ [page]), true, none)
    | none =>
        match loadOrder with
        | [] => none
        | victim :: rest =>
            match jsIndexOf (some victim) frames with
            | none => none
            | some replaceIndex =>
                some ((frames.set replaceIndex (some page), rest ++ [page]), true, some victim)

/-- The simulation loop over the remaining page references, accumulating
the snapshot list and the fault count (source lines 66-110). -/
def simulateAux : List Nat → List (Option Nat) → List Nat →
    Option (List StepSnapshot × Nat)
  | [], _, _ => some ([], 0)
  | page :: rest, frames, loadOrder =>
    match fifoStep frames loadOrder page with
    | none => none
    | some ((frames2, loadOrder2), fault2, replaced2) =>
      match simulateAux rest frames2 loadOrder2 with
      | none => none
      | some (snaps, faults) =>
        some (⟨page, frames2, fault2, replaced2, rankMap loadOrder2⟩ :: snaps,
              (if fault2 then 1 else 0) + faults)

/-- The full simulation history plus the final fault count
(`simulationSteps` and `pageFaults` of the source). -/
structure SimulationTrace where
  steps : List StepSnapshot
  totalFaults : Nat
  deriving DecidableEq

/-- The simulation engine: frames initialized to `frameCount` empty
slots, empty queue, then the loop (source lines 61-114). -/
def simulate (pages : List Nat) (frameCount : Nat) : Option SimulationTrace :=
  match simulateAux pages (List.replicate frameCount none) [] with
  | none => none
  | some (snaps, faults) => some ⟨snaps, faults⟩

/-- The engine's precondition (spec §4.2): a validated input is a
non-empty sequence of at most 10 non-negative references together with a
frame count between 3 and 5. -/
def ValidatedInput (pages : List Nat) (frameCount : Nat) : Prop :=
  pages ≠ [] ∧ pages.length ≤ 10 ∧ 3 ≤ frameCount ∧ frameCount ≤ 5

/-- Number of occupied slots of a snapshot's frames array. -/
def occupancy (s : StepSnapshot) : Nat :=
  (s.frames.filterMap id).length

/-- The load-order queue recorded inside a snapshot: the keys of its
rank mapping, in rank order. -/
def snapQueue (s : StepSnapshot) : List Nat :=
  s.frameRanks.map Prod.fst

/-- The transition relation between two consecutive snapshots: the later
one is produced by `fifoStep` from the state recorded in the earlier one. -/
def StepRel (s s2 : StepSnapshot) : Prop :=
  fifoStep s.frames (snapQueue s) s2.pageReference =
    some ((s2.frames, snapQueue s2), s2.isFault, s2.replacedPage)

/-- The machine invariant tying the frames array to the load-order
queue: fixed frame count, duplicate-free queue, and the queue is a
permutation of the occupied slots. -/
structure StInv (fc : Nat) (frames : List (Option Nat)) (loadOrder : List Nat) : Prop where
  len_eq : frames.length = fc
  nodup : loadOrder.Nodup
  perm : (frames.filterMap id).Perm loadOrder

/-- What `simulateAux` guarantees about every snapshot it emits: the rank
mapping is the rank mapping of its own key list, and the snapshot is the
outcome of a `fifoStep` from some invariant-satisfying state. -/
def GoodSnap (fc : Nat) (s : StepSnapshot) : Prop :=
  s.frameRanks = rankMap (snapQueue s) ∧
  ∃ f q, StInv fc f q ∧
    fifoStep f q s.pageReference = some ((s.frames, snapQueue s), s.isFault, s.replacedPage)

/-! ### Basic lemmas about the lookup helpers -/

theorem jsIndexOf_eq_none {x : Option Nat} :
    ∀ {l : List (Option Nat)}, jsIndexOf x l = none ↔ x ∉ l := by
  intro l
  induction l with
  | nil => simp [jsIndexOf]
  | cons y rest ih =>
    by_cases hy : y = x
    · subst hy
      simp [jsIndexOf]
    · simp only [jsIndexOf, if_neg hy, Option.map_eq_none', ih, List.mem_cons]
      constructor
      · intro h h2
        rcases h2 with h2 | h2
        · exact hy h2.symm
        · exact h h2
      · intro h h2
        exact h (Or.inr h2)

theorem jsIndexOf_getElem {x : Option Nat} :
    ∀ {l : List (Option Nat)} {i : Nat}, jsIndexOf x l = some i → l[i]? = some x := by
  intro l
  induction l with
  | nil => intro i h; simp [jsIndexOf] at h
  | cons y rest ih =>
    intro i h
    by_cases hy : y = x
    · subst hy
      have h0 : i = 0 := by
        simp [jsIndexOf] at h
        omega
      subst h0
      simp
    · simp only [jsIndexOf, if_neg hy, Option.map_eq_some'] at h
      obtain ⟨j, hj, rfl⟩ := h
      simpa using ih hj

theorem jsIndexOf_isSome_of_mem {x : Option Nat} {l : List (Option Nat)} (h : x ∈ l) :
    ∃ i, jsIndexOf x l = some i := by
  cases hix : jsIndexOf x l with
  | none => exact absurd h (jsIndexOf_eq_none.mp hix)
  | some i => exact ⟨i, rfl⟩

theorem mem_filterMap_id {p : Nat} {l : List (Option Nat)} :
    p ∈ l.filterMap id ↔ some p ∈ l := by
  simp [List.mem_filterMap]

theorem filterMap_id_replicate_none (fc : Nat) :
    (List.replicate fc (none : Option Nat)).filterMap id = [] := by
  induction fc with
  | zero => rfl
  | succ k ih => simp [List.replicate_succ, List.filterMap_cons, ih]

theorem filterMap_set_of_none :
    ∀ {l : List (Option Nat)} {i : Nat} (p : Nat), l[i]? = some none →
      ((l.set i (some p)).filterMap id).Perm (p :: l.filterMap id) := by
  intro l
  induction l with
  | nil => intro i p h; simp at h
  | cons y rest ih =>
    intro i p h
    cases i with
    | zero =>
      simp only [List.getElem?_cons_zero, Option.some.injEq] at h
      subst h
      simp [List.filterMap_cons]
    | succ j =>
      simp only [List.getElem?_cons_succ] at h
      cases y with
      | none =>
        simpa [List.filterMap_cons] using ih p h
      | some w =>
        simp only [List.set_cons_succ, List.filterMap_cons, id]
        exact ((ih p h).cons w).trans (List.Perm.swap p w _)

theorem filterMap_set_of_some :
    ∀ {l : List (Option Nat)} {i v : Nat} (p : Nat), l[i]? = some (some v) →
      (p :: l.filterMap id).Perm (v :: (l.set i (some p)).filterMap id) := by
  intro l
  induction l with
  | nil => intro i v p h; simp at h
  | cons y rest ih =>
    intro i v p h
    cases i with
    | zero =>
      simp only [List.getElem?_cons_zero, Option.some.injEq] at h
      subst h
      simp only [List.set_cons_zero, List.filterMap_cons, id]
      exact List.Perm.swap v p _
    | succ j =>
      simp only [List.getElem?_cons_succ] at h
      cases y with
      | none =>
        simpa [List.filterMap_cons] using ih p h
      | some w =>
        simp only [List.set_cons_succ, List.filterMap_cons, id]
        exact (List.Perm.swap w p _).trans (((ih p h).cons w).trans (List.Perm.swap v w _))

theorem length_filterMap_id_le (l : List (Option Nat)) :
    (l.filterMap id).length ≤ l.length := by
  induction l with
  | nil => simp
  | cons y rest ih =>
    cases y with
    | none => simpa [List.filterMap_cons] using Nat.le_succ_of_le ih
    | some w => simpa [List.filterMap_cons] using ih

/-! ### Lemmas about the rank mapping -/

theorem rankMapAux_map_fst : ∀ (i : Nat) (q : List Nat),
    (rankMapAux i q).map Prod.fst = q := by
  intro i q
  induction q generalizing i with
  | nil => rfl
  | cons p rest ih => simp [rankMapAux, ih]

theorem rankMap_map_fst (q : List Nat) : (rankMap q).map Prod.fst = q :=
  rankMapAux_map_fst 0 q

theorem rankMap_length (q : List Nat) : (rankMap q).length = q.length := by
  calc (rankMap q).length = ((rankMap q).map Prod.fst).length := (List.length_map _ _).symm
    _ = q.length := by rw [rankMap_map_fst]

theorem lookup_rankMap_head (v : Nat) (rest : List Nat) :
    List.lookup v (rankMap (v :: rest)) = some 1 := by
  simp [rankMap, rankMapAux, List.lookup]

/-! ### The machine invariant -/

theorem stInv_init (fc : Nat) : StInv fc (List.replicate fc none) [] :=
  ⟨List.length_replicate fc none, List.nodup_nil, by
    rw [filterMap_id_replicate_none]⟩

/-! ### Case analysis of one simulation step -/

theorem fifoStep_cases {f : List (Option Nat)} {q : List Nat} {p : Nat}
    {f2 : List (Option Nat)} {q2 : List Nat} {b : Bool} {r : Option Nat}
    (h : fifoStep f q p = some ((f2, q2), b, r)) :
    (some p ∈ f ∧ f2 = f ∧ q2 = q ∧ b = false ∧ r = none) ∨
    (some p ∉ f ∧ (∃ i, jsIndexOf none f = some i ∧ f2 = f.set i (some p)) ∧
      q2 = q ++ [p] ∧ b = true ∧ r = none) ∨
    (some p ∉ f ∧ jsIndexOf none f = none ∧
      ∃ v rest i, q = v :: rest ∧ jsIndexOf (some v) f = some i ∧
        f2 = f.set i (some p) ∧ q2 = rest ++ [p] ∧ b = true ∧ r = some v) := by
  by_cases hmem : some p ∈ f
  · left
    simp only [fifoStep, if_pos hmem, Option.some.injEq, Prod.mk.injEq] at h
    exact ⟨hmem, h.1.1.symm, h.1.2.symm, h.2.1.symm, h.2.2.symm⟩
  · rw [fifoStep.eq_def, if_neg hmem] at h
    cases hfree : jsIndexOf none f with
    | some i =>
      right; left
      simp only [hfree, Option.some.injEq, Prod.mk.injEq] at h
      exact ⟨hmem, ⟨i, rfl, h.1.1.symm⟩, h.1.2.symm, h.2.1.symm, h.2.2.symm⟩
    | none =>
      simp only [hfree] at h
      cases q with
      | nil => cases h
      | cons v rest =>
        cases hvic : jsIndexOf (some v) f with
        | none => simp only [hvic] at h; cases h
        | some i =>
          right; right
          simp only [hvic, Option.some.injEq, Prod.mk.injEq] at h
          exact ⟨hmem, rfl, v, rest, i, rfl, hvic, h.1.1.symm, h.1.2.symm,
            h.2.1.symm, h.2.2.symm⟩

/-- Invariant preservation along one step of the loop. -/
theorem stInv_fifoStep {fc : Nat} {f : List (Option Nat)} {q : List Nat} {p : Nat}
    {f2 : List (Option Nat)} {q2 : List Nat} {b : Bool} {r : Option Nat}
    (hinv : StInv fc f q)
    (h : fifoStep f q p = some ((f2, q2), b, r)) : StInv fc f2 q2 := by
  have hpq : some p ∉ f → p ∉ q := fun hp hq =>
    hp (mem_filterMap_id.mp (hinv.perm.mem_iff.mpr hq))
  rcases fifoStep_cases h with ⟨_, rfl, rfl, _, _⟩ |
    ⟨hp, ⟨i, hfree, rfl⟩, rfl, _, _⟩ |
    ⟨hp, _, v, rest, i, rfl, hvic, rfl, rfl, _, _⟩
  · exact hinv
  · -- fault into a free slot
    have hi : f[i]? = some none := jsIndexOf_getElem hfree
    have hperm : ((f.set i (some p)).filterMap id).Perm (q ++ [p]) :=
      (filterMap_set_of_none p hi).trans
        ((hinv.perm.cons p).trans (List.perm_append_singleton p q).symm)
    refine ⟨by rw [List.length_set, hinv.len_eq], ?_, hperm⟩
    have hnd : (p :: q).Nodup := List.nodup_cons.mpr ⟨hpq hp, hinv.nodup⟩
    exact (List.perm_append_singleton p q).symm.nodup hnd
  · -- fault with eviction
    have hi : f[i]? = some (some v) := jsIndexOf_getElem hvic
    have hrest : (f.filterMap id).Perm (v :: rest) := hinv.perm
    have hperm2 : (p :: f.filterMap id).Perm (v :: (f.set i (some p)).filterMap id) :=
      filterMap_set_of_some p hi
    have hchain : (v :: (f.set i (some p)).filterMap id).Perm (v :: (p :: rest)) :=
      hperm2.symm.trans ((hrest.cons p).trans (List.Perm.swap v p rest))
    have hperm3 : ((f.set i (some p)).filterMap id).Perm (rest ++ [p]) :=
      (hchain.cons_inv).trans (List.perm_append_singleton p rest).symm
    refine ⟨by rw [List.length_set, hinv.len_eq], ?_, hperm3⟩
    have hvrest := List.nodup_cons.mp hinv.nodup
    have hpr : p ∉ rest := fun hm => hpq hp (List.mem_cons_of_mem v hm)
    have hnd : (p :: rest).Nodup := List.nodup_cons.mpr ⟨hpr, hvrest.2⟩
    exact (List.perm_append_singleton p rest).symm.nodup hnd

/-- From an invariant state with at least one frame, the step function
never reaches its two corrupt branches. -/
theorem fifoStep_isSome {fc : Nat} {f : List (Option Nat)} {q : List Nat}
    (hinv : StInv fc f q) (hfc : 1 ≤ fc) (p : Nat) :
    ∃ out, fifoStep f q p = some out := by
  by_cases hmem : some p ∈ f
  · exact ⟨_, by rw [fifoStep.eq_def, if_pos hmem]⟩
  · cases hfree : jsIndexOf none f with
    | some i => exact ⟨_, by rw [fifoStep.eq_def, if_neg hmem, hfree]⟩
    | none =>
      have hnone : (none : Option Nat) ∉ f := jsIndexOf_eq_none.mp hfree
      cases q with
      | nil =>
        exfalso
        have hfm : f.filterMap id = [] := hinv.perm.eq_nil
        cases hf : f with
        | nil =>
          have hlen := hinv.len_eq
          rw [hf] at hlen
          simp at hlen
          omega
        | cons y ys =>
          cases y with
          | none => exact hnone (by rw [hf]; exact List.mem_cons_self _ _)
          | some w =>
            have hw : w ∈ f.filterMap id :=
              mem_filterMap_id.mpr (by rw [hf]; exact List.mem_cons_self _ _)
            rw [hfm] at hw
            exact absurd hw (List.not_mem_nil w)
      | cons v rest =>
        have hv : some v ∈ f :=
          mem_filterMap_id.mp (hinv.perm.mem_iff.mpr (List.mem_cons_self _ _))
        obtain ⟨i, hi⟩ := jsIndexOf_isSome_of_mem hv
        refine ⟨((f.set i (some p), rest ++ [p]), true, some v), ?_⟩
        rw [fifoStep.eq_def, if_neg hmem]
        simp only [hfree, hi]

/-! ### Lemmas about the simulation loop -/

/-- Totality of the loop on invariant states: the corrupt branches are
never taken, so the loop always returns a result. -/
theorem simulateAux_isSome {fc : Nat} :
    ∀ (pages : List Nat) (f : List (Option Nat)) (q : List Nat),
      StInv fc f q → 1 ≤ fc → ∃ out, simulateAux pages f q = some out := by
  intro pages
  induction pages with
  | nil => intro f q _ _; exact ⟨([], 0), rfl⟩
  | cons page rest ih =>
    intro f q hinv hfc
    obtain ⟨⟨⟨f2, q2⟩, b, r⟩, hstep⟩ := fifoStep_isSome hinv hfc page
    have hinv2 := stInv_fifoStep hinv hstep
    obtain ⟨⟨snaps, faults⟩, hrec⟩ := ih f2 q2 hinv2 hfc
    refine ⟨(⟨page, f2, b, r, rankMap q2⟩ :: snaps, (if b then 1 else 0) + faults), ?_⟩
    rw [simulateAux]
    simp only [hstep, hrec]

/-- The snapshot list follows the input references in order, and the
fault accumulator counts exactly the faulting snapshots. -/
theorem simulateAux_shape :
    ∀ {pages : List Nat} {f : List (Option Nat)} {q : List Nat}
      {snaps : List StepSnapshot} {n : Nat},
      simulateAux pages f q = some (snaps, n) →
      snaps.map (fun s => s.pageReference) = pages ∧
      n = (snaps.filter (fun s => s.isFault)).length := by
  intro pages
  induction pages with
  | nil =>
    intro f q snaps n h
    rw [simulateAux] at h
    simp only [Option.some.injEq, Prod.mk.injEq] at h
    rw [← h.1, ← h.2]
    exact ⟨rfl, rfl⟩
  | cons page rest ih =>
    intro f q snaps n h
    rw [simulateAux] at h
    cases hstep : fifoStep f q page with
    | none => simp only [hstep] at h; cases h
    | some out =>
      obtain ⟨⟨f2, q2⟩, b, r⟩ := out
      simp only [hstep] at h
      cases hrec : simulateAux rest f2 q2 with
      | none => simp only [hrec] at h; cases h
      | some out2 =>
        obtain ⟨snaps2, faults2⟩ := out2
        simp only [hrec, Option.some.injEq, Prod.mk.injEq] at h
        obtain ⟨hsnaps, hn⟩ := h
        obtain ⟨hmap, hfaults⟩ := ih hrec
        subst hsnaps
        constructor
        · simp [hmap]
        · cases b with
          | false => simp [List.filter_cons, ← hn, hfaults]
          | true =>
            simp [List.filter_cons, ← hn, hfaults]
            omega

/-- Every emitted snapshot is the outcome of a `fifoStep` from an
invariant state, the head snapshot steps from the initial state, and
consecutive snapshots are related by `StepRel`. -/
theorem simulateAux_good {fc : Nat} :
    ∀ {pages : List Nat} {f : List (Option Nat)} {q : List Nat}
      {snaps : List StepSnapshot} {n : Nat},
      StInv fc f q →
      simulateAux pages f q = some (snaps, n) →
      (∀ s ∈ snaps, GoodSnap fc s) ∧
      (∀ s ∈ snaps.head?, fifoStep f q s.pageReference =
        some ((s.frames, snapQueue s), s.isFault, s.replacedPage)) ∧
      List.Chain' StepRel snaps := by
  intro pages
  induction pages with
  | nil =>
    intro f q snaps n _ h
    rw [simulateAux] at h
    simp only [Option.some.injEq, Prod.mk.injEq] at h
    rw [← h.1]
    exact ⟨by simp, by simp, List.chain'_nil⟩
  | cons page rest ih =>
    intro f q snaps n hinv h
    rw [simulateAux] at h
    cases hstep : fifoStep f q page with
    | none => simp only [hstep] at h; cases h
    | some out =>
      obtain ⟨⟨f2, q2⟩, b, r⟩ := out
      simp only [hstep] at h
      cases hrec : simulateAux rest f2 q2 with
      | none => simp only [hrec] at h; cases h
      | some out2 =>
        obtain ⟨snaps2, faults2⟩ := out2
        simp only [hrec, Option.some.injEq, Prod.mk.injEq] at h
        obtain ⟨hsnaps, _⟩ := h
        have hinv2 := stInv_fifoStep hinv hstep
        obtain ⟨hgood2, hhead2, hchain2⟩ := ih hinv2 hrec
        subst hsnaps
        have hq2 : snapQueue (⟨page, f2, b, r, rankMap q2⟩ : StepSnapshot) = q2 := by
          simp [snapQueue, rankMap_map_fst]
        have hgood0 : GoodSnap fc ⟨page, f2, b, r, rankMap q2⟩ := by
          refine ⟨by rw [hq2], f, q, hinv, ?_⟩
          rw [hq2]
          exact hstep
        refine ⟨?_, ?_, ?_⟩
        · intro s hs
          rcases List.mem_cons.mp hs with rfl | hs
          · exact hgood0
          · exact hgood2 s hs
        · intro s hs
          simp only [List.head?_cons, Option.mem_def, Option.some.injEq] at hs
          subst hs
          rw [hq2]
          exact hstep
        · rw [List.chain'_cons']
          refine ⟨?_, hchain2⟩
          intro s2 hs2
          have hstep2 := hhead2 s2 hs2
          unfold StepRel
          rw [hq2]
          exact hstep2

/-- A `GoodSnap` snapshot itself satisfies the machine invariant. -/
theorem goodSnap_inv {fc : Nat} {s : StepSnapshot} (h : GoodSnap fc s) :
    StInv fc s.frames (snapQueue s) := by
  obtain ⟨_, f, q, hinv, hstep⟩ := h
  exact stInv_fifoStep hinv hstep

/-- A chain can be strengthened with any property that holds of every
element of the list. -/
theorem chain_with_mem {α : Type} {P : α → Prop} {R : α → α → Prop} :
    ∀ {l : List α}, List.Chain' R l → (∀ s ∈ l, P s) →
      List.Chain' (fun a b => P a ∧ P b ∧ R a b) l := by
  intro l
  induction l with
  | nil => intro _ _; exact List.chain'_nil
  | cons a t ih =>
    intro hc hm
    rw [List.chain'_cons'] at hc ⊢
    refine ⟨fun b hb => ⟨hm a (List.mem_cons_self _ _),
      hm b (List.mem_cons_of_mem a (List.mem_of_mem_head? hb)), hc.1 b hb⟩,
      ih hc.2 (fun s hs => hm s (List.mem_cons_of_mem a hs))⟩

/-- The first step of a run: the first reference always faults into
slot 0 of the all-empty frames array, evicting nothing. -/
theorem fifoStep_initial {fc : Nat} (hfc : 1 ≤ fc) (p : Nat) :
    fifoStep (List.replicate fc none) [] p =
      some (((List.replicate fc none).set 0 (some p), [p]), true, none) := by
  obtain ⟨k, rfl⟩ : ∃ k, fc = k + 1 := ⟨fc - 1, by omega⟩
  have hmem : some p ∉ List.replicate (k + 1) (none : Option Nat) := by
    simp [List.mem_replicate]
  rw [fifoStep.eq_def, if_neg hmem]
  have hfree : jsIndexOf none (List.replicate (k + 1) (none : Option Nat)) = some 0 := by
    rw [List.replicate_succ, jsIndexOf, if_pos rfl]
  simp only [hfree]
  rfl

/-- Unfolding `simulate` back to `simulateAux`. -/
theorem simulate_eq_aux {pages : List Nat} {fc : Nat} {tr : SimulationTrace}
    (h : simulate pages fc = some tr) :
    simulateAux pages (List.replicate fc none) [] = some (tr.steps, tr.totalFaults) := by
  rw [simulate.eq_def] at h
  cases haux : simulateAux pages (List.replicate fc none) [] with
  | none => rw [haux] at h; cases h
  | some out =>
    obtain ⟨snaps, faults⟩ := out
    rw [haux] at h
    simp only [Option.some.injEq] at h
    rw [← h]

/-! ### Per-edge consequences of the step relation -/

/-- The occupied-slot count of a good snapshot equals the length of its
recorded queue. -/
theorem occupancy_eq_queue_length {fc : Nat} {s : StepSnapshot} (h : GoodSnap fc s) :
    occupancy s = (snapQueue s).length :=
  (goodSnap_inv h).perm.length_eq

/-- If the later snapshot of an edge records an eviction, the victim had
rank 1 in the earlier snapshot's rank mapping. -/
theorem stepRel_evict_rank {fc : Nat} {s s2 : StepSnapshot} {v : Nat}
    (hg : GoodSnap fc s) (hrel : StepRel s s2) (hr : s2.replacedPage = some v) :
    List.lookup v s.frameRanks = some 1 := by
  rcases fifoStep_cases hrel with ⟨_, _, _, _, h5⟩ | ⟨_, _, _, _, h5⟩ |
    ⟨_, _, v2, rest, i, hq, _, _, _, _, h5⟩
  · rw [hr] at h5; cases h5
  · rw [hr] at h5; cases h5
  · rw [hr] at h5
    have hv : v = v2 := by
      injection h5 with h6
    subst hv
    rw [hg.1, hq]
    exact lookup_rankMap_head v rest

/-- A hit leaves the snapshot state identical to the previous one and
records neither a fault nor an eviction. -/
theorem stepRel_hit {fc : Nat} {s s2 : StepSnapshot}
    (hg : GoodSnap fc s) (hg2 : GoodSnap fc s2) (hrel : StepRel s s2)
    (hmem : some s2.pageReference ∈ s.frames) :
    s2.isFault = false ∧ s2.replacedPage = none ∧
      s2.frames = s.frames ∧ s2.frameRanks = s.frameRanks := by
  rcases fifoStep_cases hrel with ⟨_, hf, hqe, hb, hrp⟩ |
    ⟨hnm, _, _, _, _⟩ | ⟨hnm, _, _, _, _, _, _, _, _, _, _⟩
  · refine ⟨hb, hrp, hf, ?_⟩
    rw [hg2.1, hqe, ← hg.1]
  · exact absurd hmem hnm
  · exact absurd hmem hnm

/-- Occupancy growth along one edge: at most one new slot per step, and
a full memory stays full. -/
theorem stepRel_occupancy {fc : Nat} {s s2 : StepSnapshot}
    (hg : GoodSnap fc s) (hg2 : GoodSnap fc s2) (hrel : StepRel s s2) :
    occupancy s2 ≤ occupancy s + 1 ∧ (occupancy s = fc → occupancy s2 = fc) := by
  have hinv2 : StInv fc s2.frames (snapQueue s2) := goodSnap_inv hg2
  have hlen : occupancy s = (snapQueue s).length := occupancy_eq_queue_length hg
  have hlen2 : occupancy s2 = (snapQueue s2).length := occupancy_eq_queue_length hg2
  have hcap2 : occupancy s2 ≤ fc := by
    have := length_filterMap_id_le s2.frames
    rw [hinv2.len_eq] at this
    exact this
  rcases fifoStep_cases hrel with ⟨_, hf, hqe, _, _⟩ |
    ⟨_, _, hqe, _, _⟩ | ⟨_, _, v, rest, i, hq, _, _, hqe, _, _⟩
  · -- hit: state unchanged
    have : occupancy s2 = occupancy s := by
      unfold occupancy
      rw [hf]
    omega
  · -- fault into a free slot: occupancy grows by exactly one
    have : occupancy s2 = occupancy s + 1 := by
      rw [hlen, hlen2, hqe]
      simp
    omega
  · -- eviction: occupancy unchanged
    have : occupancy s2 = occupancy s := by
      rw [hlen, hlen2, hqe, hq]
      simp
    omega

/-- An eviction implies a fault, and the evicted page is never the page
just referenced. -/
theorem goodSnap_evict {fc : Nat} {s : StepSnapshot} {v : Nat}
    (hg : GoodSnap fc s) (hr : s.replacedPage = some v) :
    s.isFault = true ∧ v ≠ s.pageReference := by
  obtain ⟨_, f, q, hinv, hstep⟩ := hg
  rcases fifoStep_cases hstep with ⟨_, _, _, _, h5⟩ | ⟨_, _, _, _, h5⟩ |
    ⟨hnm, _, v2, rest, i, hq, _, _, _, hb, h5⟩
  · rw [hr] at h5; cases h5
  · rw [hr] at h5; cases h5
  · have hv : v = v2 := by
      rw [hr] at h5
      injection h5 with h6
    subst hv
    refine ⟨hb, fun hvp => ?_⟩
    have hvf : some v ∈ f :=
      mem_filterMap_id.mp (hinv.perm.mem_iff.mpr (by rw [hq]; exact List.mem_cons_self _ _))
    rw [hvp] at hvf
    exact hnm hvf

/-- Propagation of fullness along the chain: once a snapshot is full,
every later snapshot is full. -/
theorem chain_full_propagates {fc : Nat} {l : List StepSnapshot}
    (hc : List.Chain' (fun s s2 => occupancy s2 ≤ occupancy s + 1 ∧
      (occupancy s = fc → occupancy s2 = fc)) l) :
    ∀ i j (hi : i < l.length) (hj : j < l.length), i ≤ j →
      occupancy (l.get ⟨i, hi⟩) = fc → occupancy (l.get ⟨j, hj⟩) = fc := by
  have hstep : ∀ k (hk : k + 1 < l.length),
      occupancy (l.get ⟨k, by omega⟩) = fc → occupancy (l.get ⟨k + 1, hk⟩) = fc := by
    intro k hk
    exact (List.chain'_iff_get.mp hc k (by omega)).2
  intro i j hi hj hij
  obtain ⟨d, rfl⟩ : ∃ d, j = i + d := ⟨j - i, by omega⟩
  clear hij
  induction d with
  | zero => intro h; exact h
  | succ e ihe =>
    intro h
    have he : i + e < l.length := by omega
    have hfull : occupancy (l.get ⟨i + e, he⟩) = fc := ihe he h
    have := hstep (i + e) (by omega) hfull
    exact this

/-! ### The claims -/

/-- C1: For every validated input and every trace returned by `simulate`,
whenever a snapshot records an eviction, the evicted page had rank 1 — the
front of the load-order queue — in the immediately preceding snapshot's rank
mapping, and the first snapshot never records an eviction. -/
theorem claim_C1 (pages : List Nat) (fc : Nat) (tr : SimulationTrace)
    (hv : ValidatedInput pages fc) (h : simulate pages fc = some tr) :
    (∀ s ∈ tr.steps.head?, s.replacedPage = none) ∧
    List.Chain' (fun s s2 => ∀ v, s2.replacedPage = some v →
      List.lookup v s.frameRanks = some 1) tr.steps := by
  obtain ⟨hgood, hhead, hchain⟩ := simulateAux_good (stInv_init fc) (simulate_eq_aux h)
  have hfc : 1 ≤ fc := by
    have := hv.2.2.1
    omega
  constructor
  · intro s hs
    have hstep := hhead s hs
    rw [fifoStep_initial hfc] at hstep
    simp only [Option.some.injEq, Prod.mk.injEq] at hstep
    exact hstep.2.2.symm
  · exact (chain_with_mem hchain hgood).imp
      (fun a b hab v hv2 => stepRel_evict_rank hab.1 hab.2.2 hv2)

/-- C2: For every validated input, `simulate` returns one snapshot per input
reference, in input order, and the total fault count equals the number of
faulting snapshots. -/
theorem claim_C2 (pages : List Nat) (fc : Nat) (tr : SimulationTrace)
    (_hv : ValidatedInput pages fc) (h : simulate pages fc = some tr) :
    tr.steps.length = pages.length ∧
    tr.steps.map (fun s => s.pageReference) = pages ∧
    tr.totalFaults = (tr.steps.filter (fun s => s.isFault)).length := by
  obtain ⟨hmap, hn⟩ := simulateAux_shape (simulate_eq_aux h)
  refine ⟨?_, hmap, hn⟩
  rw [← hmap]
  exact (List.length_map _ _).symm

/-- C4: For every validated input and every snapshot: the occupied frame
entries coincide with the keys of the rank mapping, both have size at most
`frameCount`, the occupancy starts at one and grows by at most one per step,
a full memory stays full across each step, and once a snapshot is full every
later snapshot is full. -/
theorem claim_C4 (pages : List Nat) (fc : Nat) (tr : SimulationTrace)
    (hv : ValidatedInput pages fc) (h : simulate pages fc = some tr) :
    (∀ s ∈ tr.steps, (∀ p, some p ∈ s.frames ↔ p ∈ snapQueue s) ∧
      occupancy s ≤ fc ∧ s.frameRanks.length ≤ fc) ∧
    (∀ s ∈ tr.steps.head?, occupancy s ≤ 1) ∧
    List.Chain' (fun s s2 => occupancy s2 ≤ occupancy s + 1 ∧
      (occupancy s = fc → occupancy s2 = fc)) tr.steps ∧
    (∀ i j (hi : i < tr.steps.length) (hj : j < tr.steps.length), i ≤ j →
      occupancy (tr.steps.get ⟨i, hi⟩) = fc → occupancy (tr.steps.get ⟨j, hj⟩) = fc) := by
  obtain ⟨hgood, hhead, hchain⟩ := simulateAux_good (stInv_init fc) (simulate_eq_aux h)
  have hfc : 1 ≤ fc := by
    have := hv.2.2.1
    omega
  have hchainOcc : List.Chain' (fun s s2 => occupancy s2 ≤ occupancy s + 1 ∧
      (occupancy s = fc → occupancy s2 = fc)) tr.steps :=
    (chain_with_mem hchain hgood).imp
      (fun a b hab => stepRel_occupancy hab.1 hab.2.1 hab.2.2)
  refine ⟨?_, ?_, hchainOcc, chain_full_propagates hchainOcc⟩
  · intro s hs
    have hinv := goodSnap_inv (hgood s hs)
    refine ⟨?_, ?_, ?_⟩
    · intro p
      rw [← mem_filterMap_id]
      exact hinv.perm.mem_iff
    · have hle := length_filterMap_id_le s.frames
      rw [hinv.len_eq] at hle
      exact hle
    · have h1 : s.frameRanks.length = (snapQueue s).length := (List.length_map _ _).symm
      rw [h1, ← hinv.perm.length_eq]
      have hle := length_filterMap_id_le s.frames
      rw [hinv.len_eq] at hle
      exact hle
  · intro s hs
    have hstep := hhead s hs
    rw [fifoStep_initial hfc] at hstep
    simp only [Option.some.injEq, Prod.mk.injEq] at hstep
    have hqs : snapQueue s = [s.pageReference] := hstep.1.2.symm
    have hocc := occupancy_eq_queue_length (hgood s (List.mem_of_mem_head? hs))
    rw [hocc, hqs]
    simp

/-- C5: For every validated input, a hit — the referenced page already
resident in the previous snapshot's frames — records no fault, no eviction,
and leaves both the frames array and the rank mapping unchanged.  (The first
reference always meets empty frames, so no hit is possible there.) -/
theorem claim_C5 (pages : List Nat) (fc : Nat) (tr : SimulationTrace)
    (_hv : ValidatedInput pages fc) (h : simulate pages fc = some tr) :
    List.Chain' (fun s s2 => some s2.pageReference ∈ s.frames →
      s2.isFault = false ∧ s2.replacedPage = none ∧
      s2.frames = s.frames ∧ s2.frameRanks = s.frameRanks) tr.steps := by
  obtain ⟨hgood, _, hchain⟩ := simulateAux_good (stInv_init fc) (simulate_eq_aux h)
  exact (chain_with_mem hchain hgood).imp
    (fun a b hab hmem => @stepRel_hit fc a b hab.1 hab.2.1 hab.2.2 hmem)

/-- C8: On every validated input the simulation is total: the queue is never
popped while empty and the victim's slot lookup never fails, so neither
corrupt branch (modelled as `none`) is ever reached. -/
theorem claim_C8 (pages : List Nat) (fc : Nat) (hv : ValidatedInput pages fc) :
    (simulate pages fc).isSome = true := by
  have hfc : 1 ≤ fc := by
    have := hv.2.2.1
    omega
  obtain ⟨⟨snaps, faults⟩, haux⟩ := simulateAux_isSome pages _ _ (stInv_init fc) hfc
  rw [simulate.eq_def, haux]
  rfl

/-- C9: For every validated input and every snapshot, the occupied entries of
the frames array are pairwise distinct: a page is resident in at most one
frame slot at any time. -/
theorem claim_C9 (pages : List Nat) (fc : Nat) (tr : SimulationTrace)
    (_hv : ValidatedInput pages fc) (h : simulate pages fc = some tr) :
    ∀ s ∈ tr.steps, (s.frames.filterMap id).Nodup := by
  obtain ⟨hgood, _, _⟩ := simulateAux_good (stInv_init fc) (simulate_eq_aux h)
  intro s hs
  have hinv := goodSnap_inv (hgood s hs)
  exact hinv.perm.nodup_iff.mpr hinv.nodup

/-- C10: For every validated input and every snapshot, a recorded eviction
implies a fault, and the evicted page is never the page just referenced. -/
theorem claim_C10 (pages : List Nat) (fc : Nat) (tr : SimulationTrace)
    (_hv : ValidatedInput pages fc) (h : simulate pages fc = some tr) :
    ∀ s ∈ tr.steps, ∀ v, s.replacedPage = some v →
      s.isFault = true ∧ v ≠ s.pageReference := by
  obtain ⟨hgood, _, _⟩ := simulateAux_good (stInv_init fc) (simulate_eq_aux h)
  intro s hs v hr
  exact goodSnap_evict (hgood s hs) hr

/-! ### Concrete runs used as witnesses -/

/-- The application's default demo input `1, 9, 3, 5, 6, 3, 2, 6`. -/
def demoPages : List Nat := [1, 9, 3, 5, 6, 3, 2, 6]

/-- The trace the engine computes on the demo input with 3 frames. -/
def demoTrace : SimulationTrace := (simulate demoPages 3).getD ⟨[], 0⟩

/-- C1 witness: the demo input is validated and the conclusion holds on its
concrete trace. -/
theorem claim_C1_witness :
    ValidatedInput demoPages 3 ∧ simulate demoPages 3 = some demoTrace ∧
    ((∀ s ∈ demoTrace.steps.head?, s.replacedPage = none) ∧
     List.Chain' (fun s s2 => ∀ v, s2.replacedPage = some v →
       List.lookup v s.frameRanks = some 1) demoTrace.steps) :=
  ⟨⟨by decide, by decide, by decide, by decide⟩, rfl,
    claim_C1 demoPages 3 demoTrace ⟨by decide, by decide, by decide, by decide⟩ rfl⟩

/-- C2 witness: the demo input is validated and the conclusion holds on its
concrete trace. -/
theorem claim_C2_witness :
    ValidatedInput demoPages 3 ∧ simulate demoPages 3 = some demoTrace ∧
    (demoTrace.steps.length = demoPages.length ∧
     demoTrace.steps.map (fun s => s.pageReference) = demoPages ∧
     demoTrace.totalFaults = (demoTrace.steps.filter (fun s => s.isFault)).length) :=
  ⟨⟨by decide, by decide, by decide, by decide⟩, rfl,
    claim_C2 demoPages 3 demoTrace ⟨by decide, by decide, by decide, by decide⟩ rfl⟩

/-- C4 witness: the demo input is validated and the conclusion holds on its
concrete trace. -/
theorem claim_C4_witness :
    ValidatedInput demoPages 3 ∧ simulate demoPages 3 = some demoTrace ∧
    ((∀ s ∈ demoTrace.steps, (∀ p, some p ∈ s.frames ↔ p ∈ snapQueue s) ∧
       occupancy s ≤ 3 ∧ s.frameRanks.length ≤ 3) ∧
     (∀ s ∈ demoTrace.steps.head?, occupancy s ≤ 1) ∧
     List.Chain' (fun s s2 => occupancy s2 ≤ occupancy s + 1 ∧
       (occupancy s = 3 → occupancy s2 = 3)) demoTrace.steps ∧
     (∀ i j (hi : i < demoTrace.steps.length) (hj : j < demoTrace.steps.length), i ≤ j →
       occupancy (demoTrace.steps.get ⟨i, hi⟩) = 3 →
       occupancy (demoTrace.steps.get ⟨j, hj⟩) = 3)) :=
  ⟨⟨by decide, by decide, by decide, by decide⟩, rfl,
    claim_C4 demoPages 3 demoTrace ⟨by decide, by decide, by decide, by decide⟩ rfl⟩

/-- C5 witness: the demo input is validated and the conclusion holds on its
concrete trace. -/
theorem claim_C5_witness :
    ValidatedInput demoPages 3 ∧ simulate demoPages 3 = some demoTrace ∧
    List.Chain' (fun s s2 => some s2.pageReference ∈ s.frames →
      s2.isFault = false ∧ s2.replacedPage = none ∧
      s2.frames = s.frames ∧ s2.frameRanks = s.frameRanks) demoTrace.steps :=
  ⟨⟨by decide, by decide, by decide, by decide⟩, rfl,
    claim_C5 demoPages 3 demoTrace ⟨by decide, by decide, by decide, by decide⟩ rfl⟩

/-- C8 witness: the demo input is validated and the simulation on it
returns a result. -/
theorem claim_C8_witness :
    ValidatedInput demoPages 3 ∧ (simulate demoPages 3).isSome = true :=
  ⟨⟨by decide, by decide, by decide, by decide⟩,
    claim_C8 demoPages 3 ⟨by decide, by decide, by decide, by decide⟩⟩

/-- C9 witness: the demo input is validated and the conclusion holds on its
concrete trace. -/
theorem claim_C9_witness :
    ValidatedInput demoPages 3 ∧ simulate demoPages 3 = some demoTrace ∧
    ∀ s ∈ demoTrace.steps, (s.frames.filterMap id).Nodup :=
  ⟨⟨by decide, by decide, by decide, by decide⟩, rfl,
    claim_C9 demoPages 3 demoTrace ⟨by decide, by decide, by decide, by decide⟩ rfl⟩

/-- C10 witness: the demo input is validated and the conclusion holds on its
concrete trace. -/
theorem claim_C10_witness :
    ValidatedInput demoPages 3 ∧ simulate demoPages 3 = some demoTrace ∧
    ∀ s ∈ demoTrace.steps, ∀ v, s.replacedPage = some v →
      s.isFault = true ∧ v ≠ s.pageReference :=
  ⟨⟨by decide, by decide, by decide, by decide⟩, rfl,
    claim_C10 demoPages 3 demoTrace ⟨by decide, by decide, by decide, by decide⟩ rfl⟩

/-! ### The demo scenario (claim C3) -/

/-- C3 counterexample: on pages `[1,9,3,5,6,3,2,6]` with 3 frames, the
eviction at the seventh reference (page 2) removes page 3 — the oldest
resident, loaded third and untouched by the intervening hit — and not
page 5 as the claim states. -/
theorem claim_C3_counterexample :
    (simulate [1, 9, 3, 5, 6, 3, 2, 6] 3).map
        (fun tr => tr.steps.map (fun s => s.replacedPage)) =
      some [none, none, none, some 1, some 9, none, some 3, none] ∧
    (simulate [1, 9, 3, 5, 6, 3, 2, 6] 3).map
        (fun tr => tr.steps.map (fun s => s.replacedPage)) ≠
      some [none, none, none, some 1, some 9, none, some 5, none] := by
  refine ⟨rfl, ?_⟩
  intro hcontra
  have h2 : (some [none, none, none, some 1, some 9, none, some 3, none] :
      Option (List (Option Nat))) =
      some [none, none, none, some 1, some 9, none, some 5, none] :=
    Eq.trans (by rfl) hcontra
  simp at h2

/-- C3 (amended): on pages `[1,9,3,5,6,3,2,6]` with 3 frames the run faults
on 1, 9, 3, 5, 6 (slots fill with 1, 9, 3, then 5 evicts 1 and 6 evicts 9),
hits on the second 3, faults on 2 evicting 3 (not 5), hits on the second 6,
and totals exactly 6 faults. -/
theorem claim_C3 :
    (simulate [1, 9, 3, 5, 6, 3, 2, 6] 3).map
        (fun tr => (tr.steps.map (fun s => (s.pageReference, s.isFault, s.replacedPage)),
          tr.totalFaults)) =
      some ([(1, true, none), (9, true, none), (3, true, none), (5, true, some 1),
        (6, true, some 9), (3, false, none), (2, true, some 3), (6, false, none)], 6) := by
  rfl

/-! ### The Belady scenario (claim C7) -/

/-- The Belady-anomaly reference sequence. -/
def beladyPages : List Nat := [1, 2, 3, 4, 1, 2, 5, 1, 2, 3, 4, 5]

/-- The same sequence as raw comma-separated tokens. -/
def beladyTokens : List String :=
  ["1", "2", "3", "4", "1", "2", "5", "1", "2", "3", "4", "5"]

/-- C7 counterexample: the Belady scenario is not reproducible through the
system, because its 12 references exceed the validator's length bound of 10
and validation rejects the input before the engine can run. -/
theorem claim_C7_counterexample :
    validate beladyTokens 3 = Except.error ValidationError.LengthOutOfRange ∧
    beladyTokens.length = 12 := by
  exact ⟨rfl, rfl⟩

/-- C7 (amended): the engine itself reproduces Belady's anomaly — 9 faults
with 3 frames and 10 faults with 4 frames on
`[1,2,3,4,1,2,5,1,2,3,4,5]` — but the scenario is not reproducible through
the system, since validation rejects its 12 references with
`LengthOutOfRange` for either frame count. -/
theorem claim_C7 :
    (simulate beladyPages 3).map (fun tr => tr.totalFaults) = some 9 ∧
    (simulate beladyPages 4).map (fun tr => tr.totalFaults) = some 10 ∧
    validate beladyTokens 3 = Except.error ValidationError.LengthOutOfRange ∧
    validate beladyTokens 4 = Except.error ValidationError.LengthOutOfRange := by
  exact ⟨rfl, rfl, rfl, rfl⟩

/-! ### Validation order (claim C6) -/

/-- The two halves of the source's check 1 detect the same tokens: a parsed
`NaN` among `pages` always comes from a non-empty trimmed token that fails
`parseInt`. -/
theorem validate_format_cond (ts : List String) :
    ((∃ o ∈ parsedOptions ts, o = none) ∨
      ∃ s ∈ ts, jsTrim s ≠ "" ∧ jsParseInt (jsTrim s) = none) ↔ hasBadToken ts := by
  constructor
  · rintro (⟨o, ho, rfl⟩ | hb)
    · rw [parsedOptions] at ho
      simp only [List.mem_map, List.mem_filter] at ho
      obtain ⟨t, ⟨⟨s, hs, rfl⟩, htne⟩, hparse⟩ := ho
      refine ⟨s, hs, ?_, hparse⟩
      simpa using htne
    · exact hb
  · intro hb
    exact Or.inr hb

/-- C6 (amended): validation checks its four rules in the fixed source order
`InvalidFormat`, `NegativeReference`, `LengthOutOfRange`,
`FrameCountOutOfRange`, reporting only the first violated rule; in
particular, validation fails with `InvalidFormat` exactly when some token
is non-empty after trimming and does not parse via `parseInt` — tokens that
are empty after trimming are filtered out and never trigger
`InvalidFormat`. -/
theorem claim_C6 (ts : List String) (fc : Int) :
    (validate ts fc = Except.error ValidationError.InvalidFormat ↔ hasBadToken ts) ∧
    (validate ts fc = Except.error ValidationError.NegativeReference ↔
      ¬hasBadToken ts ∧ ∃ n ∈ parsedPages ts, n < 0) ∧
    (validate ts fc = Except.error ValidationError.LengthOutOfRange ↔
      ¬hasBadToken ts ∧ (∀ n ∈ parsedPages ts, 0 ≤ n) ∧
      ((parsedPages ts).length = 0 ∨ (parsedPages ts).length > 10)) ∧
    (validate ts fc = Except.error ValidationError.FrameCountOutOfRange ↔
      ¬hasBadToken ts ∧ (∀ n ∈ parsedPages ts, 0 ≤ n) ∧
      (parsedPages ts).length ≠ 0 ∧ (parsedPages ts).length ≤ 10 ∧
      (fc < 3 ∨ fc > 5)) ∧
    (validate ts fc = Except.ok (parsedPages ts, fc) ↔
      ¬hasBadToken ts ∧ (∀ n ∈ parsedPages ts, 0 ≤ n) ∧
      (parsedPages ts).length ≠ 0 ∧ (parsedPages ts).length ≤ 10 ∧
      3 ≤ fc ∧ fc ≤ 5) := by
  have hfmt := validate_format_cond ts
  rw [validate.eq_def]
  split_ifs with h1 h2 h3 h4
  · -- first check failed: InvalidFormat
    have hb : hasBadToken ts := hfmt.mp h1
    refine ⟨iff_of_true rfl hb, ?_, ?_, ?_, ?_⟩ <;>
      exact iff_of_false (by simp) (fun hc => hc.1 hb)
  · -- second check failed: NegativeReference
    have hnb : ¬hasBadToken ts := fun hb => h1 (hfmt.mpr hb)
    refine ⟨iff_of_false (by simp) (fun hb => h1 (hfmt.mpr hb)),
      iff_of_true rfl ⟨hnb, h2⟩, ?_, ?_, ?_⟩ <;>
    · refine iff_of_false (by simp) (fun hc => ?_)
      obtain ⟨n, hn, hlt⟩ := h2
      exact absurd hlt (not_lt.mpr (hc.2.1 n hn))
  · -- third check failed: LengthOutOfRange
    have hnb : ¬hasBadToken ts := fun hb => h1 (hfmt.mpr hb)
    have hpos : ∀ n ∈ parsedPages ts, 0 ≤ n := by
      intro n hn
      by_contra hneg
      exact h2 ⟨n, hn, by omega⟩
    refine ⟨iff_of_false (by simp) (fun hb => h1 (hfmt.mpr hb)),
      iff_of_false (by simp) (fun hc => h2 hc.2),
      iff_of_true rfl ⟨hnb, hpos, h3⟩, ?_, ?_⟩ <;>
    · refine iff_of_false (by simp) (fun hc => ?_)
      have hne := hc.2.2.1
      have hle := hc.2.2.2.1
      omega
  · -- fourth check failed: FrameCountOutOfRange
    have hnb : ¬hasBadToken ts := fun hb => h1 (hfmt.mpr hb)
    have hpos : ∀ n ∈ parsedPages ts, 0 ≤ n := by
      intro n hn
      by_contra hneg
      exact h2 ⟨n, hn, by omega⟩
    have hlen : (parsedPages ts).length ≠ 0 ∧ (parsedPages ts).length ≤ 10 := by
      constructor
      · intro h0
        exact h3 (Or.inl h0)
      · by_contra hgt
        exact h3 (Or.inr (by omega))
    refine ⟨iff_of_false (by simp) (fun hb => h1 (hfmt.mpr hb)),
      iff_of_false (by simp) (fun hc => h2 hc.2),
      iff_of_false (by simp) (fun hc => h3 hc.2.2),
      iff_of_true rfl ⟨hnb, hpos, hlen.1, hlen.2, h4⟩,
      iff_of_false (by simp) (fun hc => ?_)⟩
    have hf1 := hc.2.2.2.2.1
    have hf2 := hc.2.2.2.2.2
    omega
  · -- all checks passed: ok
    have hnb : ¬hasBadToken ts := fun hb => h1 (hfmt.mpr hb)
    have hpos : ∀ n ∈ parsedPages ts, 0 ≤ n := by
      intro n hn
      by_contra hneg
      exact h2 ⟨n, hn, by omega⟩
    have hlen : (parsedPages ts).length ≠ 0 ∧ (parsedPages ts).length ≤ 10 := by
      constructor
      · intro h0
        exact h3 (Or.inl h0)
      · by_contra hgt
        exact h3 (Or.inr (by omega))
    have hfc : 3 ≤ fc ∧ fc ≤ 5 := by
      constructor
      · by_contra hlt
        exact h4 (Or.inl (by omega))
      · by_contra hgt
        exact h4 (Or.inr (by omega))
    refine ⟨iff_of_false (by simp) (fun hb => hnb hb),
      iff_of_false (by simp) (fun hc => h2 hc.2),
      iff_of_false (by simp) (fun hc => h3 hc.2.2),
      iff_of_false (by simp) (fun hc => h4 hc.2.2.2.2),
      iff_of_true rfl ⟨hnb, hpos, hlen.1, hlen.2, hfc.1, hfc.2⟩⟩

/-- C6 counterexample: the raw token list `["1", "", "2"]` contains an empty
token, yet validation does not fail with `InvalidFormat`: the empty token is
silently filtered out and validation succeeds with the remaining pages. -/
theorem claim_C6_counterexample :
    validate ["1", "", "2"] 3 = Except.ok ([1, 2], 3) ∧
    validate ["1", "", "2"] 3 ≠ Except.error ValidationError.InvalidFormat := by
  refine ⟨rfl, ?_⟩
  intro hcontra
  have h2 : (Except.ok ([1, 2], 3) : Except ValidationError (List Int × Int)) =
      Except.error ValidationError.InvalidFormat := Eq.trans (by rfl) hcontra
  cases h2

end FifoSim
